import Mathlib

/-!
Verification of the Selection & Dependency Resolution Engine of
`launcher/ui/dialogs/ResourceDownloadDialog.cpp` (PrismLauncher).

The embedding models:
* `m_selected : QMap<QString, DownloadTaskPtr>` as an association list
  sorted on its keys (QMap iterates keys in ascending `QString` order);
* the `is_currently_selected` flag living on `ModPlatform::IndexedVersion`
  objects as a set of `Version` values (the spec's "index lookup
  (package/version id -> flag)" view of the shared flag state);
* `addResource` / `removeResource` / `getReqiredBy` / `confirm` directly
  from the source, with the external collaborators (dependency-resolution
  task, progress dialog, review dialog, provider pages) as parameters.
-/

namespace ResourceDownload

/-- Provider of a package (`ModPlatform::ResourceProvider`). -/
inductive Provider where
  | modrinth
  | flame
deriving DecidableEq, Repr

/-- Modelled from the spec: `ModPlatform::ProviderCapabilities::name`
(the static display-name table in `modplatform/ModIndex.h`, not under
`src/`) returns a human-readable display name per provider identifier. -/
def providerDisplayName : Provider → String
  | .modrinth => "Modrinth"
  | .flame => "CurseForge"

/-- Essentials of `ModPlatform::IndexedVersion`.  `packName` records which
package the version belongs to (spec: a Version belongs to exactly one
Package); `required_by` is the list of addon ids requiring this version. -/
structure Version where
  vid : Nat
  packName : String
  fileName : String
  customPath : String
  required_by : List Nat
deriving DecidableEq, Repr

/-- Essentials of `ModPlatform::IndexedPack`. -/
structure Pack where
  addonId : Nat
  name : String
  provider : Provider
deriving DecidableEq, Repr

/-- Essentials of a `ResourceDownloadTask` held in `m_selected`: the pack,
the version and whether the selection was added automatically by the
dependency resolver (`is_indexed` argument of `addResource`). -/
structure Entry where
  pack : Pack
  version : Version
  is_indexed : Bool
deriving DecidableEq, Repr

/-- Lexicographic strict order on character lists, the order underlying
`QString::operator<` (spelled out structurally so that it evaluates). -/
def lexLt : List Char → List Char → Prop
  | _, [] => False
  | [], _ :: _ => True
  | a :: as, b :: bs => a < b ∨ (a = b ∧ lexLt as bs)

instance : DecidableRel lexLt := fun as bs =>
  match as, bs with
  | [], [] => .isFalse (fun h => h)
  | _ :: _, [] => .isFalse (fun h => h)
  | [], _ :: _ => .isTrue trivial
  | a :: as, b :: bs =>
    have : Decidable (lexLt as bs) := instDecidableRelListCharLexLt as bs
    inferInstanceAs (Decidable (a < b ∨ (a = b ∧ lexLt as bs)))

/-- Strict order on strings modelling `QString::operator<` (the key order
of `QMap<QString, _>`). -/
def strLt (a b : String) : Prop :=
  lexLt a.data b.data

instance : DecidableRel strLt := fun a b =>
  inferInstanceAs (Decidable (lexLt a.data b.data))

theorem lexLt_irrefl (as : List Char) : ¬ lexLt as as := by
  induction as with
  | nil => exact id
  | cons a as ih =>
    rintro (h | ⟨-, h⟩)
    · exact lt_irrefl a h
    · exact ih h

theorem lexLt_trans {as bs cs : List Char} (h1 : lexLt as bs) (h2 : lexLt bs cs) :
    lexLt as cs := by
  induction as generalizing bs cs with
  | nil =>
    cases cs with
    | nil =>
      cases bs with
      | nil => exact absurd h1 id
      | cons b bs => exact absurd h2 id
    | cons c cs => exact trivial
  | cons a as ih =>
    cases bs with
    | nil => exact absurd h1 id
    | cons b bs =>
      cases cs with
      | nil => exact absurd h2 id
      | cons c cs =>
        rcases h1 with h1 | ⟨rfl, h1⟩
        · rcases h2 with h2 | ⟨rfl, h2⟩
          · exact Or.inl (lt_trans h1 h2)
          · exact Or.inl h1
        · rcases h2 with h2 | ⟨rfl, h2⟩
          · exact Or.inl h2
          · exact Or.inr ⟨rfl, ih h1 h2⟩

theorem lexLt_trichotomy (as bs : List Char) : lexLt as bs ∨ as = bs ∨ lexLt bs as := by
  induction as generalizing bs with
  | nil =>
    cases bs with
    | nil => exact Or.inr (Or.inl rfl)
    | cons b bs => exact Or.inl trivial
  | cons a as ih =>
    cases bs with
    | nil => exact Or.inr (Or.inr trivial)
    | cons b bs =>
      rcases lt_trichotomy a b with h | h | h
      · exact Or.inl (Or.inl h)
      · rcases ih bs with h' | h' | h'
        · exact Or.inl (Or.inr ⟨h, h'⟩)
        · exact Or.inr (Or.inl (by rw [h, h']))
        · exact Or.inr (Or.inr (Or.inr ⟨h.symm, h'⟩))
      · exact Or.inr (Or.inr (Or.inl h))

theorem strLt_irrefl (a : String) : ¬ strLt a a :=
  lexLt_irrefl a.data

theorem strLt_trans {a b c : String} (h1 : strLt a b) (h2 : strLt b c) : strLt a c :=
  lexLt_trans h1 h2

theorem strLt_trichotomy (a b : String) : strLt a b ∨ a = b ∨ strLt b a := by
  rcases lexLt_trichotomy a.data b.data with h | h | h
  · exact Or.inl h
  · refine Or.inr (Or.inl ?_)
    cases a; cases b; cases h; rfl
  · exact Or.inr (Or.inr h)

theorem strLt_ne {a b : String} (h : strLt a b) : a ≠ b := by
  rintro rfl
  exact strLt_irrefl a h

/-- The association-list model of `QMap<QString, DownloadTaskPtr>`. -/
abbrev SelMap := List (String × Entry)

/-- Lookup in the map, mirroring `QMap::constFind`. -/
def mapLookup (m : SelMap) (k : String) : Option Entry :=
  match m with
  | [] => none
  | kv :: rest => if kv.1 = k then some kv.2 else mapLookup rest k

/-- Insert into the key-sorted association list, replacing an existing
binding, mirroring `QMap::insert`. -/
def mapInsert (k : String) (e : Entry) : SelMap → SelMap
  | [] => [(k, e)]
  | kv :: rest =>
    if strLt k kv.1 then (k, e) :: kv :: rest
    else if k = kv.1 then (k, e) :: rest
    else kv :: mapInsert k e rest

/-- Remove a key, mirroring `QMap::remove`. -/
def mapRemove (k : String) (m : SelMap) : SelMap :=
  m.filter (fun kv => kv.1 ≠ k)

/-- Keys of the map, in iteration order (`QMap::keys`). -/
def mapKeys (m : SelMap) : List String :=
  m.map Prod.fst

/-- State of the dialog's selection engine: the `m_selected` map together
with the set of versions whose `is_currently_selected` flag is true. -/
structure DialogState where
  m_selected : SelMap
  flags : List Version
deriving DecidableEq, Repr

/-- The dialog starts with no selections and no version flagged. -/
def initState : DialogState :=
  { m_selected := [], flags := [] }

/-- Modelled from the spec: `ResourcePage::removeResourceFromPage(name)`
(code under `ui/pages/modplatform`, not under `src/`) deselects every
cached version of the pack with that name; the source's own comment
("Deselect the new version too, since all versions of that pack got
removed.") documents this behaviour.  In the flag-set model it clears the
selected flag of every version belonging to the named pack. -/
def pageDeselectAll (name : String) (flags : List Version) : List Version :=
  flags.filter (fun v => v.packName ≠ name)

/-- Model of `ResourceDownloadDialog::removeResource` (the page lookups are
assumed to succeed here; see `removeResourceChecked` for the unchecked
`dynamic_cast` dereference): both provider pages deselect all versions of
the pack, the version argument's selected flag is cleared, and the map
entry for the pack name is removed. -/
def removeResource (pack : Pack) (ver : Version) (s : DialogState) : DialogState :=
  let flags := pageDeselectAll pack.name s.flags
  let flags := flags.filter (fun v => v ≠ ver)
  { m_selected := mapRemove pack.name s.m_selected, flags := flags }

/-- Model of `ResourceDownloadDialog::addResource`: first `removeResource`
with the same arguments, then set the version's selected flag and insert a
new task keyed by the pack name. -/
def addResource (pack : Pack) (ver : Version) (is_indexed : Bool) (s : DialogState) : DialogState :=
  let s := removeResource pack ver s
  { m_selected := mapInsert pack.name ⟨pack, ver, is_indexed⟩ s.m_selected,
    flags := ver :: s.flags }

/-- Identifiers of the two provider pages consulted by `removeResource`
(`Modrinth::id()` and `Flame::id()`). -/
inductive PageId where
  | modrinth
  | flame
deriving DecidableEq, Repr

/-- Model of `ResourceDownloadDialog::removeResource` including the two
`dynamic_cast<ResourcePage*>(m_container->getPage(...))` dereferences.
`pageOk pid` is true iff the container holds a page with that id that
really is a `ResourcePage`; when either cast yields null the source calls
`removeResourceFromPage` through a null pointer, which is modelled as the
crashing result `none`. -/
def removeResourceChecked (pageOk : PageId → Bool) (pack : Pack) (ver : Version)
    (s : DialogState) : Option DialogState :=
  if pageOk .modrinth && pageOk .flame then
    some (removeResource pack ver s)
  else
    none

/-- First entry (in `QMap` key order) whose pack has the given addon id;
this is the inner loop of `getReqiredBy` with its `break`. -/
def findFirstByAddon (m : SelMap) (r : Nat) : Option Entry :=
  match m with
  | [] => none
  | kv :: rest => if kv.2.pack.addonId = r then some kv.2 else findFirstByAddon rest r

/-- Model of `ResourceDownloadDialog::getReqiredBy`: for each requesting
addon id, scan the selected entries in key order and append the display
name of the first entry whose pack has that addon id. -/
def getReqiredBy (s : DialogState) (req_by : List Nat) : List String :=
  match req_by with
  | [] => []
  | r :: rest =>
    match findFirstByAddon s.m_selected r with
    | some e => e.pack.name :: getReqiredBy s rest
    | none => getReqiredBy s rest

/-- Lexicographic less-or-equal on character lists (the order underlying
case-insensitive `QString` comparison, spelled out structurally so that it
evaluates). -/
def lexLe : List Char → List Char → Prop
  | [], _ => True
  | _ :: _, [] => False
  | a :: as, b :: bs => a < b ∨ (a = b ∧ lexLe as bs)

instance : DecidableRel lexLe := fun as bs =>
  match as, bs with
  | [], _ => .isTrue trivial
  | _ :: _, [] => .isFalse id
  | a :: as, b :: bs =>
    have : Decidable (lexLe as bs) := instDecidableRelListCharLexLe as bs
    inferInstanceAs (Decidable (a < b ∨ (a = b ∧ lexLe as bs)))

/-- Characters of a string folded to lower case (`QString::toLower` viewed
on the character data). -/
def lowerChars (s : String) : List Char :=
  s.data.map Char.toLower

/-- Case-insensitive order on package names, modelling
`QStringList::sort(Qt::CaseInsensitive)`. -/
def ciLe (a b : String) : Prop :=
  lexLe (lowerChars a) (lowerChars b)

instance : DecidableRel ciLe := fun a b =>
  inferInstanceAs (Decidable (lexLe (lowerChars a) (lowerChars b)))

theorem lexLe_total (as bs : List Char) : lexLe as bs ∨ lexLe bs as := by
  induction as generalizing bs with
  | nil => exact Or.inl trivial
  | cons a as ih =>
    cases bs with
    | nil => exact Or.inr trivial
    | cons b bs =>
      rcases lt_trichotomy a b with h | h | h
      · exact Or.inl (Or.inl h)
      · rcases ih bs with h' | h'
        · exact Or.inl (Or.inr ⟨h, h'⟩)
        · exact Or.inr (Or.inr ⟨h.symm, h'⟩)
      · exact Or.inr (Or.inl h)

theorem lexLe_trans {as bs cs : List Char} (h1 : lexLe as bs) (h2 : lexLe bs cs) :
    lexLe as cs := by
  induction as generalizing bs cs with
  | nil => exact trivial
  | cons a as ih =>
    cases bs with
    | nil => exact absurd h1 id
    | cons b bs =>
      cases cs with
      | nil => exact absurd h2 id
      | cons c cs =>
        rcases h1 with h1 | ⟨rfl, h1⟩
        · rcases h2 with h2 | ⟨rfl, h2⟩
          · exact Or.inl (lt_trans h1 h2)
          · exact Or.inl h1
        · rcases h2 with h2 | ⟨rfl, h2⟩
          · exact Or.inl h2
          · exact Or.inr ⟨rfl, ih h1 h2⟩

instance : IsTotal String ciLe :=
  ⟨fun a b => lexLe_total (lowerChars a) (lowerChars b)⟩

instance : IsTrans String ciLe :=
  ⟨fun _ _ _ hab hbc => lexLe_trans hab hbc⟩

/-- One row appended to the `ReviewMessageBox` by `confirm`: package name,
resolved filename, custom install path, provider display name and the
required-by names (`confirm_dialog->appendResource({...})`). -/
structure PlanRow where
  name : String
  filename : String
  customPath : String
  provider : String
  requiredBy : List String
deriving DecidableEq, Repr

/-- Plan row built by `confirm` for key `name` mapped to entry `e`. -/
def mkRow (s : DialogState) (name : String) (e : Entry) : PlanRow :=
  { name := name,
    filename := e.version.fileName,
    customPath := e.version.customPath,
    provider := providerDisplayName e.pack.provider,
    requiredBy := getReqiredBy s e.version.required_by }

/-- Model of the plan-building loop of `confirm`: sort the keys
case-insensitively and emit one row per key from its map entry. -/
def buildPlan (s : DialogState) : List PlanRow :=
  (List.insertionSort ciLe (mapKeys s.m_selected)).filterMap
    (fun name => (mapLookup s.m_selected name).map (mkRow s name))

/-- Outcome of the external dependency-resolution task
(`GetModDependenciesTask`) as interpreted by `confirm`: success with the
newly discovered dependencies and warnings, failure with a reason, or
cancellation by the user's abort. -/
inductive ResolutionOutcome where
  | succeeded (deps : List (Pack × Version)) (warnings : List String)
  | failed (reason : String)
  | cancelled
deriving DecidableEq, Repr

/-- Return code of a modal dialog run (`QDialog::DialogCode`). -/
inductive DialogCode where
  | accepted
  | rejected
deriving DecidableEq, Repr

/-- Modelled from the spec: `ProgressDialog::execWithTask` (code under
`ui/dialogs/ProgressDialog.cpp`, not under `src/`) returns `Rejected` when
the dialog is skipped, i.e. when the user aborts the resolution run; per
the spec a `Failed` resolution surfaces its reason but does not abort the
confirmation attempt, so it yields `Accepted` and `confirm` proceeds to
build the plan. -/
def execWithTask : ResolutionOutcome → DialogCode
  | .cancelled => .rejected
  | .failed _ => .accepted
  | .succeeded _ _ => .accepted

/-- Fold the resolver's newly discovered dependencies into the store, in
order, each via `addResource` with `is_indexed = true` (the merge loop
`for (auto dep : task->getDependecies()) addResource(dep->pack,
dep->version, true)`). -/
def mergeDeps (deps : List (Pack × Version)) (s : DialogState) : DialogState :=
  deps.foldl (fun st pv => addResource pv.1 pv.2 true st) s

/-- Terminal state of one `confirm` run: rejected during resolution
(carrying the untouched store), review dialog closed without acceptance,
or accepted (carrying the reviewed plan and the post-deselection store). -/
inductive ConfirmOutcome where
  | aborted (store : DialogState)
  | reviewCancelled (plan : List PlanRow) (store : DialogState)
  | accepted (plan : List PlanRow) (store : DialogState)
deriving DecidableEq, Repr

/-- Store carried inside a `ConfirmOutcome`. -/
def ConfirmOutcome.finalStore : ConfirmOutcome → DialogState
  | .aborted s => s
  | .reviewCancelled _ s => s
  | .accepted _ s => s

/-- Plan carried inside a `ConfirmOutcome`, if one was built. -/
def ConfirmOutcome.planBuilt : ConfirmOutcome → Option (List PlanRow)
  | .aborted _ => none
  | .reviewCancelled p _ => some p
  | .accepted p _ => some p

/-- Result of one `confirm` run, together with the message boxes raised:
`errorsShown` are the `Task::failed` reasons surfaced via a critical
message box, `warningsShown` the joined warning text surfaced on
success. -/
structure ConfirmResult where
  errorsShown : List String
  warningsShown : List String
  outcome : ConfirmOutcome
deriving DecidableEq, Repr

/-- Plan review and deselection phase of `confirm`: build the plan, hand
it to the review dialog (`review plan = none` models
`confirm_dialog->exec()` returning false, `some des` models acceptance
with `des = confirm_dialog->deselectedResources()`); on acceptance each
deselected name is removed from `m_selected` directly by `QMap::remove`
(line `m_selected.remove(name)` — not via `removeResource`). -/
def confirmReview (errs warns : List String) (review : List PlanRow → Option (List String))
    (s : DialogState) : ConfirmResult :=
  let plan := buildPlan s
  match review plan with
  | none => ⟨errs, warns, .reviewCancelled plan s⟩
  | some deselected =>
    let m := deselected.foldl (fun m n => mapRemove n m) s.m_selected
    ⟨errs, warns, .accepted plan { s with m_selected := m }⟩

/-- Model of `ResourceDownloadDialog::confirm`.  `res` is the outcome of
`getModDependenciesTask()` (`none` when the dialog has no dependency task,
as in the non-mod dialogs); `review` is the external review collaborator.
When the progress dialog is rejected the whole dialog is rejected with the
store untouched; otherwise the succeeded outcome's dependencies are merged
and the plan is built and reviewed. -/
def confirm (res : Option ResolutionOutcome) (review : List PlanRow → Option (List String))
    (s : DialogState) : ConfirmResult :=
  match res with
  | none => confirmReview [] [] review s
  | some out =>
    let errs : List String :=
      match out with
      | .failed r => [r]
      | _ => []
    let warns : List String :=
      match out with
      | .succeeded _ w => if w.length ≠ 0 then [String.intercalate "\n" w] else []
      | _ => []
    match execWithTask out with
    | .rejected => ⟨errs, warns, .aborted s⟩
    | .accepted =>
      let s1 :=
        match out with
        | .succeeded deps _ => mergeDeps deps s
        | _ => s
      confirmReview errs warns review s1

/-- One externally driven mutation of the selection store:
`addResource` (user pick or resolver merge) or `removeResource`. -/
inductive Op where
  | add (pack : Pack) (ver : Version) (is_indexed : Bool)
  | remove (pack : Pack) (ver : Version)
deriving DecidableEq, Repr

/-- Well-formedness of a call: the version passed really is a version of
the pack passed (spec: a Version belongs to exactly one Package). -/
def Op.wf : Op → Prop
  | .add p v _ => v.packName = p.name
  | .remove p v => v.packName = p.name

instance : DecidablePred Op.wf := fun op =>
  match op with
  | .add p v _ => inferInstanceAs (Decidable (v.packName = p.name))
  | .remove p v => inferInstanceAs (Decidable (v.packName = p.name))

/-- Apply one mutation to the state. -/
def applyOp (s : DialogState) : Op → DialogState
  | .add p v a => addResource p v a s
  | .remove p v => removeResource p v s

/-- Run a sequence of mutations from the initial (empty) state. -/
def runOps (ops : List Op) : DialogState :=
  ops.foldl applyOp initState

/-! ### Association-list map lemmas -/

/-- The map's entries are strictly increasing in their keys (the shape a
`QMap` always has). -/
def KeysSorted (m : SelMap) : Prop :=
  m.Pairwise (fun a b => strLt a.1 b.1)

theorem mapLookup_cons (kv : String × Entry) (rest : SelMap) (k : String) :
    mapLookup (kv :: rest) k = if kv.1 = k then some kv.2 else mapLookup rest k :=
  rfl

theorem mapLookup_insert_self (m : SelMap) (k : String) (e : Entry) :
    mapLookup (mapInsert k e m) k = some e := by
  induction m with
  | nil => simp [mapInsert, mapLookup]
  | cons kv rest ih =>
    simp only [mapInsert]
    by_cases hlt : strLt k kv.1
    · rw [if_pos hlt, mapLookup_cons, if_pos rfl]
    · rw [if_neg hlt]
      by_cases heq : k = kv.1
      · rw [if_pos heq, mapLookup_cons, if_pos rfl]
      · rw [if_neg heq, mapLookup_cons, if_neg (fun hh => heq hh.symm)]
        exact ih

theorem mapLookup_insert_ne (m : SelMap) {k k' : String} (e : Entry) (h : k' ≠ k) :
    mapLookup (mapInsert k e m) k' = mapLookup m k' := by
  induction m with
  | nil =>
    show mapLookup [(k, e)] k' = none
    rw [mapLookup_cons, if_neg (Ne.symm h)]
    rfl
  | cons kv rest ih =>
    simp only [mapInsert]
    by_cases hlt : strLt k kv.1
    · rw [if_pos hlt, mapLookup_cons, if_neg (Ne.symm h)]
    · rw [if_neg hlt]
      by_cases heq : k = kv.1
      · rw [if_pos heq, mapLookup_cons, if_neg (Ne.symm h), mapLookup_cons,
          if_neg (fun hh => h (heq ▸ hh).symm)]
      · rw [if_neg heq, mapLookup_cons, mapLookup_cons, ih]

theorem mapLookup_remove_self (m : SelMap) (k : String) :
    mapLookup (mapRemove k m) k = none := by
  induction m with
  | nil => rfl
  | cons kv rest ih =>
    by_cases hk : kv.1 = k
    · simpa [mapRemove, List.filter_cons, hk] using ih
    · simp only [mapRemove, List.filter_cons] at ih ⊢
      rw [if_pos (by simpa using hk), mapLookup_cons, if_neg hk]
      exact ih

theorem mapLookup_remove_ne (m : SelMap) {k k' : String} (h : k' ≠ k) :
    mapLookup (mapRemove k m) k' = mapLookup m k' := by
  induction m with
  | nil => rfl
  | cons kv rest ih =>
    simp only [mapRemove, List.filter_cons] at ih ⊢
    by_cases hk : kv.1 = k
    · rw [if_neg (by simpa using hk), mapLookup_cons,
        if_neg (fun hh => h (hh.symm.trans hk) : ¬ kv.1 = k'), ih]
    · rw [if_pos (by simpa using hk), mapLookup_cons, mapLookup_cons, ih]

theorem mapLookup_of_mem_keys {m : SelMap} {k : String} (h : k ∈ mapKeys m) :
    ∃ e, mapLookup m k = some e := by
  induction m with
  | nil => simp [mapKeys] at h
  | cons kv rest ih =>
    by_cases hk : kv.1 = k
    · exact ⟨kv.2, by rw [mapLookup_cons, if_pos hk]⟩
    · have hmem : k ∈ mapKeys rest := by
        rcases (by simpa [mapKeys] using h : k = kv.1 ∨ k ∈ mapKeys rest) with h' | h'
        · exact absurd h'.symm hk
        · exact h'
      rcases ih hmem with ⟨e, he⟩
      exact ⟨e, by rw [mapLookup_cons, if_neg hk]; exact he⟩

theorem mem_of_lookup {m : SelMap} {k : String} {e : Entry}
    (h : mapLookup m k = some e) : (k, e) ∈ m := by
  induction m with
  | nil => simp [mapLookup] at h
  | cons kv rest ih =>
    by_cases hk : kv.1 = k
    · rw [mapLookup_cons, if_pos hk] at h
      cases h
      subst hk
      exact List.mem_cons_self _ _
    · rw [mapLookup_cons, if_neg hk] at h
      exact List.mem_cons.mpr (Or.inr (ih h))

theorem mapKeys_cons (kv : String × Entry) (rest : SelMap) :
    mapKeys (kv :: rest) = kv.1 :: mapKeys rest :=
  rfl

theorem mem_keys_insert {m : SelMap} {k k' : String} {e : Entry}
    (h : k' ∈ mapKeys (mapInsert k e m)) : k' = k ∨ k' ∈ mapKeys m := by
  induction m with
  | nil =>
    rw [show mapInsert k e [] = [(k, e)] from rfl, mapKeys_cons] at h
    rcases List.mem_cons.mp h with h | h
    · exact Or.inl h
    · simp [mapKeys] at h
  | cons kv rest ih =>
    simp only [mapInsert] at h
    by_cases hlt : strLt k kv.1
    · rw [if_pos hlt, mapKeys_cons] at h
      rcases List.mem_cons.mp h with h | h
      · exact Or.inl h
      · exact Or.inr h
    · rw [if_neg hlt] at h
      by_cases heq : k = kv.1
      · rw [if_pos heq, mapKeys_cons] at h
        rcases List.mem_cons.mp h with h | h
        · exact Or.inl h
        · exact Or.inr (by rw [mapKeys_cons]; exact List.mem_cons_of_mem _ h)
      · rw [if_neg heq, mapKeys_cons] at h
        rcases List.mem_cons.mp h with h | h
        · exact Or.inr (by rw [mapKeys_cons, h]; exact List.mem_cons_self _ _)
        · rcases ih h with h' | h'
          · exact Or.inl h'
          · exact Or.inr (by rw [mapKeys_cons]; exact List.mem_cons_of_mem _ h')

theorem keysSorted_remove {m : SelMap} (k : String) (h : KeysSorted m) :
    KeysSorted (mapRemove k m) :=
  h.sublist (List.filter_sublist m)

theorem keysSorted_nodup {m : SelMap} (h : KeysSorted m) : (mapKeys m).Nodup := by
  have hp : (mapKeys m).Pairwise strLt :=
    List.pairwise_map.mpr h
  exact hp.imp (fun hab => strLt_ne hab)

theorem keysSorted_insert {m : SelMap} (k : String) (e : Entry) (h : KeysSorted m) :
    KeysSorted (mapInsert k e m) := by
  induction m with
  | nil => simp [mapInsert, KeysSorted]
  | cons kv rest ih =>
    rcases List.pairwise_cons.mp h with ⟨hkv, hrest⟩
    simp only [mapInsert]
    by_cases hlt : strLt k kv.1
    · rw [if_pos hlt]
      refine List.pairwise_cons.mpr ⟨?_, h⟩
      intro b hb
      rcases List.mem_cons.mp hb with rfl | hb
      · exact hlt
      · exact strLt_trans hlt (hkv b hb)
    · rw [if_neg hlt]
      by_cases heq : k = kv.1
      · rw [if_pos heq]
        refine List.pairwise_cons.mpr ⟨?_, hrest⟩
        intro b hb
        exact heq ▸ hkv b hb
      · rw [if_neg heq]
        refine List.pairwise_cons.mpr ⟨?_, ih hrest⟩
        intro b hb
        have hbk : b.1 = k ∨ b.1 ∈ mapKeys rest :=
          mem_keys_insert (List.mem_map_of_mem Prod.fst hb)
        rcases hbk with hbk | hbk
        · rw [hbk]
          rcases strLt_trichotomy kv.1 k with h' | h' | h'
          · exact h'
          · exact absurd h'.symm heq
          · exact absurd h' hlt
        · rcases List.mem_map.mp hbk with ⟨c, hc, hcb⟩
          exact hcb ▸ hkv c hc


/-! ### The selected-flag / store-entry invariant -/

/-- Flag-consistency invariant: a version's currently-selected flag is set
iff the store holds an entry for that version's package whose version is
exactly this version. -/
def FlagInv (s : DialogState) : Prop :=
  ∀ v : Version, v ∈ s.flags ↔
    ∃ e, mapLookup s.m_selected v.packName = some e ∧ e.version = v

/-- Both invariants of the selection store. -/
def StoreInv (s : DialogState) : Prop :=
  KeysSorted s.m_selected ∧ FlagInv s

theorem storeInv_initState : StoreInv initState := by
  constructor
  · exact List.Pairwise.nil
  · intro v
    constructor
    · intro hv
      exact absurd hv (List.not_mem_nil v)
    · rintro ⟨e, he, -⟩
      cases he

theorem flagInv_removeResource {s : DialogState} (pack : Pack) (ver : Version)
    (hwf : ver.packName = pack.name) (h : FlagInv s) :
    FlagInv (removeResource pack ver s) := by
  intro v
  show v ∈ (pageDeselectAll pack.name s.flags).filter (fun u => u ≠ ver) ↔
    ∃ e, mapLookup (mapRemove pack.name s.m_selected) v.packName = some e ∧ e.version = v
  simp only [pageDeselectAll, List.mem_filter, decide_eq_true_eq]
  by_cases hp : v.packName = pack.name
  · constructor
    · rintro ⟨⟨-, hne⟩, -⟩
      exact absurd hp hne
    · rintro ⟨e, he, -⟩
      rw [hp, mapLookup_remove_self] at he
      cases he
  · have hv_ne : v ≠ ver := fun hh => hp (hh ▸ hwf)
    rw [mapLookup_remove_ne _ hp]
    constructor
    · rintro ⟨⟨hv, -⟩, -⟩
      exact (h v).mp hv
    · intro he
      exact ⟨⟨(h v).mpr he, hp⟩, hv_ne⟩

theorem flagInv_addResource {s : DialogState} (pack : Pack) (ver : Version) (auto : Bool)
    (hwf : ver.packName = pack.name) (h : FlagInv s) :
    FlagInv (addResource pack ver auto s) := by
  have h1 : FlagInv (removeResource pack ver s) := flagInv_removeResource pack ver hwf h
  intro v
  show v ∈ ver :: (removeResource pack ver s).flags ↔
    ∃ e, mapLookup (mapInsert pack.name ⟨pack, ver, auto⟩
      (removeResource pack ver s).m_selected) v.packName = some e ∧ e.version = v
  by_cases hv : v = ver
  · subst hv
    constructor
    · intro
      exact ⟨⟨pack, v, auto⟩, by rw [hwf]; exact mapLookup_insert_self _ _ _, rfl⟩
    · intro
      exact List.mem_cons_self _ _
  · constructor
    · intro hmem
      have hmem' : v ∈ (removeResource pack ver s).flags := by
        rcases List.mem_cons.mp hmem with h' | h'
        · exact absurd h' hv
        · exact h'
      rcases (h1 v).mp hmem' with ⟨e, he, hev⟩
      by_cases hp : v.packName = pack.name
      · rw [hp] at he
        rw [show (removeResource pack ver s).m_selected = mapRemove pack.name s.m_selected
          from rfl, mapLookup_remove_self] at he
        cases he
      · exact ⟨e, by rw [mapLookup_insert_ne _ _ hp]; exact he, hev⟩
    · rintro ⟨e, he, hev⟩
      by_cases hp : v.packName = pack.name
      · rw [hp, mapLookup_insert_self] at he
        cases he
        exact absurd hev.symm hv
      · rw [mapLookup_insert_ne _ _ hp] at he
        exact List.mem_cons_of_mem _ ((h1 v).mpr ⟨e, he, hev⟩)

theorem storeInv_applyOp {s : DialogState} {op : Op} (hwf : op.wf) (h : StoreInv s) :
    StoreInv (applyOp s op) := by
  cases op with
  | add p v a =>
    exact ⟨keysSorted_insert _ _ (keysSorted_remove _ h.1),
      flagInv_addResource p v a hwf h.2⟩
  | remove p v =>
    exact ⟨keysSorted_remove _ h.1, flagInv_removeResource p v hwf h.2⟩

theorem storeInv_foldl : ∀ (ops : List Op) (s : DialogState),
    (∀ op ∈ ops, op.wf) → StoreInv s → StoreInv (ops.foldl applyOp s)
  | [], _, _, h => h
  | op :: ops, _, hwf, h =>
    storeInv_foldl ops _ (fun o ho => hwf o (List.mem_cons_of_mem _ ho))
      (storeInv_applyOp (hwf op (List.mem_cons_self _ _)) h)

theorem storeInv_runOps (ops : List Op) (hwf : ∀ op ∈ ops, op.wf) :
    StoreInv (runOps ops) :=
  storeInv_foldl ops initState hwf storeInv_initState

/-! ### Plan-building lemmas -/

theorem buildPlan_names_aux (s : DialogState) :
    ∀ l : List String, (∀ x ∈ l, x ∈ mapKeys s.m_selected) →
      (l.filterMap (fun name => (mapLookup s.m_selected name).map (mkRow s name))).map
        PlanRow.name = l := by
  intro l hl
  induction l with
  | nil => rfl
  | cons a l ih =>
    rcases mapLookup_of_mem_keys (hl a (List.mem_cons_self a l)) with ⟨e, he⟩
    rw [List.filterMap_cons, he]
    show PlanRow.name (mkRow s a e) ::
      (l.filterMap (fun name => (mapLookup s.m_selected name).map (mkRow s name))).map
        PlanRow.name = a :: l
    rw [ih (fun x hx => hl x (List.mem_cons_of_mem _ hx))]
    rfl

theorem buildPlan_names (s : DialogState) :
    (buildPlan s).map PlanRow.name = List.insertionSort ciLe (mapKeys s.m_selected) := by
  refine buildPlan_names_aux s _ ?_
  intro x hx
  exact (List.perm_insertionSort ciLe (mapKeys s.m_selected)).subset hx

theorem buildPlan_names_perm (s : DialogState) :
    ((buildPlan s).map PlanRow.name).Perm (mapKeys s.m_selected) := by
  rw [buildPlan_names]
  exact List.perm_insertionSort ciLe (mapKeys s.m_selected)

theorem buildPlan_names_sorted (s : DialogState) :
    ((buildPlan s).map PlanRow.name).Sorted ciLe := by
  rw [buildPlan_names]
  exact List.sorted_insertionSort ciLe (mapKeys s.m_selected)

theorem buildPlan_row_spec {s : DialogState} {row : PlanRow} (h : row ∈ buildPlan s) :
    ∃ e, mapLookup s.m_selected row.name = some e ∧ row = mkRow s row.name e := by
  rcases List.mem_filterMap.mp h with ⟨a, -, ha⟩
  rcases Option.map_eq_some'.mp ha with ⟨e, he, hrow⟩
  have hname : row.name = a := by rw [← hrow]; rfl
  exact ⟨e, by rw [hname]; exact he, by rw [hname, ← hrow]⟩

/-! ### Dependency-merge lemmas -/

theorem mergeDeps_preserves_auto : ∀ (deps : List (Pack × Version)) (s : DialogState)
    (k : String), (∃ e, mapLookup s.m_selected k = some e ∧ e.is_indexed = true) →
    ∃ e, mapLookup (mergeDeps deps s).m_selected k = some e ∧ e.is_indexed = true
  | [], _, _, h => h
  | d :: deps, s, k, h => by
    show ∃ e, mapLookup (mergeDeps deps (addResource d.1 d.2 true s)).m_selected k
      = some e ∧ e.is_indexed = true
    apply mergeDeps_preserves_auto deps
    rcases h with ⟨e, he, ha⟩
    by_cases hk : k = d.1.name
    · refine ⟨⟨d.1, d.2, true⟩, ?_, rfl⟩
      rw [hk]
      exact mapLookup_insert_self _ _ _
    · refine ⟨e, ?_, ha⟩
      show mapLookup (mapInsert d.1.name ⟨d.1, d.2, true⟩
        (mapRemove d.1.name s.m_selected)) k = some e
      rw [mapLookup_insert_ne _ _ hk, mapLookup_remove_ne _ hk]
      exact he

theorem mergeDeps_mem {deps : List (Pack × Version)} {pv : Pack × Version}
    (s : DialogState) (h : pv ∈ deps) :
    ∃ e, mapLookup (mergeDeps deps s).m_selected pv.1.name = some e ∧
      e.is_indexed = true := by
  induction deps generalizing s with
  | nil => cases h
  | cons d deps ih =>
    rcases List.mem_cons.mp h with rfl | h'
    · show ∃ e, mapLookup (mergeDeps deps (addResource pv.1 pv.2 true s)).m_selected
        pv.1.name = some e ∧ e.is_indexed = true
      apply mergeDeps_preserves_auto deps
      exact ⟨⟨pv.1, pv.2, true⟩, mapLookup_insert_self _ _ _, rfl⟩
    · exact ih (addResource d.1 d.2 true s) h'

/-! ### Review-deselection lemmas -/

theorem mapLookup_foldl_remove (names : List String) (m : SelMap) (k : String) :
    mapLookup (names.foldl (fun acc n => mapRemove n acc) m) k
      = if k ∈ names then none else mapLookup m k := by
  induction names generalizing m with
  | nil => simp
  | cons n names ih =>
    rw [List.foldl_cons, ih]
    by_cases hk : k ∈ names
    · simp [hk, List.mem_cons]
    · by_cases hkn : k = n
      · simp [hkn, mapLookup_remove_self]
      · rw [if_neg hk, mapLookup_remove_ne _ hkn,
          if_neg (fun hh => (List.mem_cons.mp hh).elim hkn hk)]

/-! ### Review helper lemmas -/

theorem confirmReview_planBuilt (errs warns : List String)
    (review : List PlanRow → Option (List String)) (s : DialogState) :
    (confirmReview errs warns review s).outcome.planBuilt = some (buildPlan s) := by
  rcases hrev : review (buildPlan s) with - | des <;>
    simp [confirmReview, hrev, ConfirmOutcome.planBuilt]

theorem confirmReview_errorsShown (errs warns : List String)
    (review : List PlanRow → Option (List String)) (s : DialogState) :
    (confirmReview errs warns review s).errorsShown = errs := by
  rcases hrev : review (buildPlan s) with - | des <;> simp [confirmReview, hrev]

/-! ### Lemmas for getReqiredBy -/

theorem findFirstByAddon_mem {m : SelMap} {r : Nat} {e : Entry}
    (h : findFirstByAddon m r = some e) :
    (∃ k, (k, e) ∈ m) ∧ e.pack.addonId = r := by
  induction m with
  | nil => cases h
  | cons kv rest ih =>
    by_cases hr : kv.2.pack.addonId = r
    · rw [findFirstByAddon, if_pos hr] at h
      cases h
      exact ⟨⟨kv.1, List.mem_cons_self _ _⟩, hr⟩
    · rw [findFirstByAddon, if_neg hr] at h
      rcases ih h with ⟨⟨k, hk⟩, ha⟩
      exact ⟨⟨k, List.mem_cons_of_mem _ hk⟩, ha⟩

theorem getReqiredBy_mem {s : DialogState} {ids : List Nat} {n : String}
    (h : n ∈ getReqiredBy s ids) :
    ∃ k e, (k, e) ∈ s.m_selected ∧ e.pack.name = n ∧ e.pack.addonId ∈ ids := by
  induction ids with
  | nil => cases h
  | cons r rest ih =>
    rcases hf : findFirstByAddon s.m_selected r with - | e
    · rw [getReqiredBy, hf] at h
      rcases ih h with ⟨k, e, hke, hn, hid⟩
      exact ⟨k, e, hke, hn, List.mem_cons_of_mem _ hid⟩
    · rw [getReqiredBy, hf] at h
      rcases List.mem_cons.mp h with rfl | h'
      · rcases findFirstByAddon_mem hf with ⟨⟨k, hk⟩, ha⟩
        exact ⟨k, e, hk, rfl, ha ▸ List.mem_cons_self _ _⟩
      · rcases ih h' with ⟨k, e', hke, hn, hid⟩
        exact ⟨k, e', hke, hn, List.mem_cons_of_mem _ hid⟩

theorem getReqiredBy_length (s : DialogState) (ids : List Nat) :
    (getReqiredBy s ids).length ≤ ids.length := by
  induction ids with
  | nil => exact Nat.le_refl 0
  | cons r rest ih =>
    rcases hf : findFirstByAddon s.m_selected r with - | e
    · rw [getReqiredBy, hf]
      exact Nat.le_succ_of_le ih
    · rw [getReqiredBy, hf]
      exact Nat.succ_le_succ ih

theorem getReqiredBy_append (s : DialogState) (a b : List Nat) :
    getReqiredBy s (a ++ b) = getReqiredBy s a ++ getReqiredBy s b := by
  induction a with
  | nil => rfl
  | cons r rest ih =>
    show getReqiredBy s (r :: (rest ++ b)) = _
    rcases hf : findFirstByAddon s.m_selected r with - | e <;>
      rw [getReqiredBy, hf, getReqiredBy, hf] <;> simp [ih]

/-! ### Concrete fixtures used by the scenario theorems -/

/-- Scenario pack: the user-selected "Fabric API" (addon id 1). -/
def fabricPack : Pack := ⟨1, "Fabric API", .modrinth⟩

/-- Scenario version of "Fabric API". -/
def fabricVer : Version := ⟨10, "Fabric API", "fabric-api.jar", "", []⟩

/-- A second, superseding version of "Fabric API". -/
def fabricVer2 : Version := ⟨11, "Fabric API", "fabric-api-0.2.jar", "", []⟩

/-- Scenario pack: the dependency "Cloth Config" (addon id 2). -/
def clothPack : Pack := ⟨2, "Cloth Config", .modrinth⟩

/-- Scenario dependency version v2 of "Cloth Config", required by addon
id 1 ("Fabric API"). -/
def clothV2 : Version := ⟨22, "Cloth Config", "cloth-config-v2.jar", "", [1]⟩

/-- Store holding only the "Fabric API" selection. -/
def fabricOnlyState : DialogState := addResource fabricPack fabricVer false initState

/-- Pack whose addon id 7 appears in its own version's required-by list. -/
def alphaPack : Pack := ⟨7, "Alpha", .modrinth⟩

/-- Version of "Alpha" listing addon id 7 twice in its required-by ids. -/
def alphaVer : Version := ⟨70, "Alpha", "alpha.jar", "", [7, 7]⟩

/-- Store holding only the "Alpha" selection. -/
def alphaState : DialogState := addResource alphaPack alphaVer false initState

/-- Page environment of the shader-pack dialog: only a Modrinth page is
created (`ShaderPackDownloadDialog::getPages`), so the Flame page lookup
yields no `ResourcePage`. -/
def shaderPages : PageId → Bool
  | .modrinth => true
  | .flame => false

/-! ### Claim theorems -/

/-- C1: for every sequence of addSelection/removeSelection calls starting
from the empty store (each call passing a version of the pack it names),
at most one entry exists per package name, and a version's
currently-selected flag is true iff the store holds an entry for that
version's package whose version it is. -/
theorem claim_C1_store_invariant (ops : List Op) (hwf : ∀ op ∈ ops, op.wf) :
    (mapKeys (runOps ops).m_selected).Nodup ∧
    ∀ v : Version, v ∈ (runOps ops).flags ↔
      ∃ e, mapLookup (runOps ops).m_selected v.packName = some e ∧ e.version = v := by
  have h := storeInv_runOps ops hwf
  exact ⟨keysSorted_nodup h.1, h.2⟩

/-- Witness for C1 at a concrete two-call trace. -/
theorem claim_C1_witness :
    (mapKeys (runOps [Op.add fabricPack fabricVer false,
      Op.add clothPack clothV2 true]).m_selected).Nodup ∧
    ∀ v : Version, v ∈ (runOps [Op.add fabricPack fabricVer false,
      Op.add clothPack clothV2 true]).flags ↔
      ∃ e, mapLookup (runOps [Op.add fabricPack fabricVer false,
        Op.add clothPack clothV2 true]).m_selected v.packName = some e ∧ e.version = v :=
  claim_C1_store_invariant
    [Op.add fabricPack fabricVer false, Op.add clothPack clothV2 true] (by decide)

/-- C2: adding a version of an already-selected package replaces the prior
entry; afterwards the store maps the pack name to the new entry, the old
version's currently-selected flag is false and the new version's flag is
true. -/
theorem claim_C2_add_replaces (s : DialogState) (P : Pack) (vOld vNew : Version)
    (e : Entry) (b : Bool)
    (_hlook : mapLookup s.m_selected P.name = some e) (_hv : e.version = vOld)
    (hwfOld : vOld.packName = P.name) (hne : vOld ≠ vNew) :
    mapLookup (addResource P vNew b s).m_selected P.name = some ⟨P, vNew, b⟩ ∧
    vOld ∉ (addResource P vNew b s).flags ∧
    vNew ∈ (addResource P vNew b s).flags := by
  refine ⟨?_, ?_, ?_⟩
  · show mapLookup (mapInsert P.name ⟨P, vNew, b⟩ (mapRemove P.name s.m_selected))
      P.name = some ⟨P, vNew, b⟩
    exact mapLookup_insert_self _ _ _
  · show vOld ∉ vNew :: (removeResource P vNew s).flags
    intro hmem
    rcases List.mem_cons.mp hmem with h | h
    · exact hne h
    · have h1 : vOld ∈ pageDeselectAll P.name s.flags := (List.mem_filter.mp h).1
      have h2 := (List.mem_filter.mp h1).2
      rw [decide_eq_true_eq] at h2
      exact h2 hwfOld
  · exact List.mem_cons_self _ _

/-- Witness for C2: replacing the selected "Fabric API" version. -/
theorem claim_C2_witness :
    mapLookup (addResource fabricPack fabricVer2 false fabricOnlyState).m_selected
      fabricPack.name = some ⟨fabricPack, fabricVer2, false⟩ ∧
    fabricVer ∉ (addResource fabricPack fabricVer2 false fabricOnlyState).flags ∧
    fabricVer2 ∈ (addResource fabricPack fabricVer2 false fabricOnlyState).flags :=
  claim_C2_add_replaces fabricOnlyState fabricPack fabricVer fabricVer2
    ⟨fabricPack, fabricVer, false⟩ false (by decide) (by decide) (by decide) (by decide)

/-- C4: when dependency resolution is cancelled by the user, the
confirmation attempt returns Aborted carrying the pre-attempt store
unchanged, with no plan built and no message boxes raised. -/
theorem claim_C4_cancelled_aborts (review : List PlanRow → Option (List String))
    (s : DialogState) :
    confirm (some .cancelled) review s = ⟨[], [], .aborted s⟩ ∧
    (confirm (some .cancelled) review s).outcome.planBuilt = none ∧
    (confirm (some .cancelled) review s).outcome.finalStore = s :=
  ⟨rfl, rfl, rfl⟩

/-- C3: when dependency resolution fails, the confirmation attempt is not
aborted: the failure reason is surfaced as the error message, and a plan
is still built from the store exactly as it stood before the attempt (its
row names are a permutation of the store's keys). -/
theorem claim_C3_failed_builds_plan (r : String)
    (review : List PlanRow → Option (List String)) (s : DialogState) :
    (confirm (some (.failed r)) review s).errorsShown = [r] ∧
    (confirm (some (.failed r)) review s).outcome.planBuilt = some (buildPlan s) ∧
    ((buildPlan s).map PlanRow.name).Perm (mapKeys s.m_selected) := by
  refine ⟨?_, ?_, buildPlan_names_perm s⟩
  · show (confirmReview [r] [] review s).errorsShown = [r]
    exact confirmReview_errorsShown [r] [] review s
  · show (confirmReview [r] [] review s).outcome.planBuilt = some (buildPlan s)
    exact confirmReview_planBuilt [r] [] review s

/-- C5: every dependency returned by a Succeeded resolution run is merged
into the store with the auto-resolved marker set, the plan is built from
the merged store, and in the Fabric/Cloth scenario the merged store holds
both entries and the two plan rows are sorted with "Cloth Config" before
"Fabric API". -/
theorem claim_C5_succeeded_merges (deps : List (Pack × Version)) (warns : List String)
    (review : List PlanRow → Option (List String)) (s : DialogState)
    (pv : Pack × Version) (hmem : pv ∈ deps) :
    (∃ e, mapLookup (mergeDeps deps s).m_selected pv.1.name = some e ∧
      e.is_indexed = true) ∧
    (confirm (some (.succeeded deps warns)) review s).outcome.planBuilt
      = some (buildPlan (mergeDeps deps s)) ∧
    mapLookup (mergeDeps [(clothPack, clothV2)] fabricOnlyState).m_selected
      "Cloth Config" = some ⟨clothPack, clothV2, true⟩ ∧
    mapLookup (mergeDeps [(clothPack, clothV2)] fabricOnlyState).m_selected
      "Fabric API" = some ⟨fabricPack, fabricVer, false⟩ ∧
    (buildPlan (mergeDeps [(clothPack, clothV2)] fabricOnlyState)).map PlanRow.name
      = ["Cloth Config", "Fabric API"] := by
  refine ⟨mergeDeps_mem s hmem, ?_, by decide, by decide, by decide⟩
  show (confirmReview []
    (if warns.length ≠ 0 then [String.intercalate "\n" warns] else [])
    review (mergeDeps deps s)).outcome.planBuilt = some (buildPlan (mergeDeps deps s))
  exact confirmReview_planBuilt _ _ review (mergeDeps deps s)

/-- Witness for C5 at the Fabric/Cloth scenario. -/
theorem claim_C5_witness :
    (∃ e, mapLookup (mergeDeps [(clothPack, clothV2)] fabricOnlyState).m_selected
      (clothPack, clothV2).1.name = some e ∧ e.is_indexed = true) ∧
    (confirm (some (.succeeded [(clothPack, clothV2)] [])) (fun _ => none)
      fabricOnlyState).outcome.planBuilt
      = some (buildPlan (mergeDeps [(clothPack, clothV2)] fabricOnlyState)) ∧
    mapLookup (mergeDeps [(clothPack, clothV2)] fabricOnlyState).m_selected
      "Cloth Config" = some ⟨clothPack, clothV2, true⟩ ∧
    mapLookup (mergeDeps [(clothPack, clothV2)] fabricOnlyState).m_selected
      "Fabric API" = some ⟨fabricPack, fabricVer, false⟩ ∧
    (buildPlan (mergeDeps [(clothPack, clothV2)] fabricOnlyState)).map PlanRow.name
      = ["Cloth Config", "Fabric API"] :=
  claim_C5_succeeded_merges [(clothPack, clothV2)] [] (fun _ => none) fabricOnlyState
    (clothPack, clothV2) (by decide)

/-- C6: the confirmation plan has exactly one row per store entry (row
names are duplicate-free and a permutation of the store's keys), rows are
ordered case-insensitively ascending by package name, and each row carries
the entry's filename, custom install path, provider display name and
required-by list. -/
theorem claim_C6_plan_rows (s : DialogState) (hnd : (mapKeys s.m_selected).Nodup) :
    ((buildPlan s).map PlanRow.name).Perm (mapKeys s.m_selected) ∧
    ((buildPlan s).map PlanRow.name).Nodup ∧
    ((buildPlan s).map PlanRow.name).Sorted ciLe ∧
    ∀ row ∈ buildPlan s, ∃ e, mapLookup s.m_selected row.name = some e ∧
      row.filename = e.version.fileName ∧
      row.customPath = e.version.customPath ∧
      row.provider = providerDisplayName e.pack.provider ∧
      row.requiredBy = getReqiredBy s e.version.required_by := by
  refine ⟨buildPlan_names_perm s, (buildPlan_names_perm s).symm.nodup hnd,
    buildPlan_names_sorted s, ?_⟩
  intro row hrow
  rcases buildPlan_row_spec hrow with ⟨e, he, hr⟩
  exact ⟨e, he, by rw [hr]; rfl, by rw [hr]; rfl, by rw [hr]; rfl, by rw [hr]; rfl⟩

/-- Store holding "Fabric API" (user-picked) and "Cloth Config"
(auto-resolved dependency). -/
def twoState : DialogState := mergeDeps [(clothPack, clothV2)] fabricOnlyState

/-- Witness for C6 at the two-entry store. -/
theorem claim_C6_witness :
    ((buildPlan twoState).map PlanRow.name).Perm (mapKeys twoState.m_selected) ∧
    ((buildPlan twoState).map PlanRow.name).Nodup ∧
    ((buildPlan twoState).map PlanRow.name).Sorted ciLe ∧
    ∀ row ∈ buildPlan twoState, ∃ e, mapLookup twoState.m_selected row.name = some e ∧
      row.filename = e.version.fileName ∧
      row.customPath = e.version.customPath ∧
      row.provider = providerDisplayName e.pack.provider ∧
      row.requiredBy = getReqiredBy twoState e.version.required_by :=
  claim_C6_plan_rows twoState (by decide)

/-- C7: every name returned by getReqiredBy is the display name of a store
entry whose pack's addon id appears in the requested id list, at most one
name is appended per requested id, and in the scenario where "Cloth
Config" was auto-added because "Fabric API" (addon id 1) required it,
getReqiredBy on Cloth Config's required-by ids returns ["Fabric API"]. -/
theorem claim_C7_requiredBy (s : DialogState) (ids : List Nat) (n : String)
    (hn : n ∈ getReqiredBy s ids) :
    (∃ k e, (k, e) ∈ s.m_selected ∧ e.pack.name = n ∧ e.pack.addonId ∈ ids) ∧
    (getReqiredBy s ids).length ≤ ids.length ∧
    getReqiredBy (mergeDeps [(clothPack, clothV2)] fabricOnlyState)
      clothV2.required_by = ["Fabric API"] :=
  ⟨getReqiredBy_mem hn, getReqiredBy_length s ids, by decide⟩

/-- Witness for C7 at the two-entry store. -/
theorem claim_C7_witness :
    (∃ k e, (k, e) ∈ twoState.m_selected ∧ e.pack.name = "Fabric API" ∧
      e.pack.addonId ∈ [1]) ∧
    (getReqiredBy twoState [1]).length ≤ [1].length ∧
    getReqiredBy (mergeDeps [(clothPack, clothV2)] fabricOnlyState)
      clothV2.required_by = ["Fabric API"] :=
  claim_C7_requiredBy twoState [1] "Fabric API" (by decide)

/-- Counterexample to C8 as stated: after the reviewer deselects "Alpha",
the entry is removed from the store, but — because the code removes it
with a direct QMap::remove instead of the store's remove operation — the
removed entry's version still has its currently-selected flag set, contra
the claim that the flag is cleared. -/
theorem claim_C8_counterexample :
    mapLookup ((confirm none (fun _ => some ["Alpha"])
      alphaState).outcome.finalStore).m_selected "Alpha" = none ∧
    alphaVer ∈ ((confirm none (fun _ => some ["Alpha"])
      alphaState).outcome.finalStore).flags ∧
    mapLookup alphaState.m_selected "Alpha" = some ⟨alphaPack, alphaVer, false⟩ ∧
    alphaVer ∈ alphaState.flags := by
  decide

/-- C8 as amended: applying the deselections removes exactly the
deselected entries from the store and no others, by direct map removal
rather than the store's remove operation; no version selected flag is
cleared (the flag state is unchanged, so non-deselected entries' versions
remain selected and the removed entries' versions stay flagged too). -/
theorem claim_C8_deselection (s : DialogState) (des : List String) (k : String) :
    ((confirm none (fun _ => some des) s).outcome.finalStore).flags = s.flags ∧
    mapLookup ((confirm none (fun _ => some des) s).outcome.finalStore).m_selected k
      = (if k ∈ des then none else mapLookup s.m_selected k) ∧
    (confirm none (fun _ => some des) s).outcome.planBuilt = some (buildPlan s) := by
  refine ⟨rfl, ?_, rfl⟩
  show mapLookup (des.foldl (fun m n => mapRemove n m) s.m_selected) k = _
  exact mapLookup_foldl_remove des s.m_selected k

/-- C9: in the shader-pack dialog only a Modrinth page exists, so the
Flame page lookup in removeResource yields no ResourcePage and the
unchecked dynamic_cast dereference crashes (modelled as `none`) instead of
logging and no-opping; with both pages present the operation proceeds. -/
theorem claim_C9_remove_crashes :
    removeResourceChecked shaderPages alphaPack alphaVer alphaState = none ∧
    removeResourceChecked (fun _ => true) alphaPack alphaVer alphaState
      = some (removeResource alphaPack alphaVer alphaState) := by
  constructor
  · rfl
  · rfl

/-- C10: getReqiredBy distributes over appended id lists (so duplicate ids
yield duplicate names, with no deduplication), and an entry whose own
addon id appears in its version's required-by ids lists its own name —
"Alpha" (addon id 7) with required-by ids [7, 7] yields
["Alpha", "Alpha"]. -/
theorem claim_C10_no_self_exclusion (s : DialogState) (a b : List Nat) :
    getReqiredBy s (a ++ b) = getReqiredBy s a ++ getReqiredBy s b ∧
    alphaPack.addonId ∈ alphaVer.required_by ∧
    getReqiredBy alphaState alphaVer.required_by = ["Alpha", "Alpha"] :=
  ⟨getReqiredBy_append s a b, by decide, by decide⟩

end ResourceDownload
